import Mathlib

/- Verification development for the iijwLauncher core (src/main.py):
   catalog management with fuzzy filtering, the download/launch
   orchestration, and the downloader event stream.  The UI chrome is out of
   scope; the definitions below embed the handlers `filter_programs`,
   `launch_program`, `download_succeeded`, `download_finished` and
   `Downloader.run` as pure functions over explicit state, with the
   filesystem (`os.path.exists`, `os.makedirs`), the HTTP transfer and the
   process spawn abstracted as parameters. -/

namespace Launcher

/-- One catalog entry as parsed from the remote JSON document: the required
string fields `program`, `version`, `README` and `binary_url`. -/
structure ProgramDescriptor where
  program : String
  version : String
  readme : String
  binary_url : String
deriving DecidableEq, Repr

/-- The searchable text built per descriptor in `load_data`:
the f-string `"{program['program']} {program['version']} {program['README']}"`. -/
def combinedText (p : ProgramDescriptor) : String :=
  p.program ++ " " ++ p.version ++ " " ++ p.readme

/-- Model of the catalog bookkeeping in `load_data`: on success both
`self.original_program_data` and `self.program_data` hold the fetched list
(the active view starts as a copy of the original). -/
structure CatalogState where
  original : List ProgramDescriptor
  active : List ProgramDescriptor
deriving DecidableEq, Repr

/-- Catalog part of `load_data`: sets `original = active =` the parsed list. -/
def load_data (catalog : List ProgramDescriptor) : CatalogState :=
  { original := catalog, active := catalog }

/-- Ranking relation used to model `process.extract` over `(payload, score,
index)` triples: higher score first, equal scores kept in ascending index
order (rapidfuzz yields equal-score choices in input order). -/
def rankLE {α : Type} (a b : α × Nat × Nat) : Prop :=
  b.2.1 < a.2.1 ∨ (a.2.1 = b.2.1 ∧ a.2.2 ≤ b.2.2)

instance {α : Type} : DecidableRel (rankLE (α := α)) := fun a b =>
  inferInstanceAs (Decidable (b.2.1 < a.2.1 ∨ (a.2.1 = b.2.1 ∧ a.2.2 ≤ b.2.2)))

instance {α : Type} : IsTotal (α × Nat × Nat) rankLE :=
  ⟨by intro a b; unfold rankLE; omega⟩

instance {α : Type} : IsTrans (α × Nat × Nat) rankLE :=
  ⟨by intro a b c hab hbc; unfold rankLE at hab hbc ⊢; omega⟩

/-- Model of `process.extract(search_text, choice_texts, scorer=fuzz.WRatio,
processor=utils.default_process, limit=len(choice_texts))`: every choice is
scored against the query and returned as a `(choice, score, index)` triple,
sorted by descending score with equal scores in input order.  The `scorer`
argument abstracts `WRatio` composed with `default_process` on both sides;
scores live on the library's 0–100 scale (§9 of the design leaves the exact
numeric output implementation-specific). -/
def extract (scorer : String → String → Nat) (search_text : String)
    (choices : List String) : List (String × Nat × Nat) :=
  List.insertionSort rankLE
    (choices.enum.map (fun it => (it.2, scorer search_text it.2, it.1)))

/-- Python's `not search_text.strip()`: true exactly when every character is
whitespace (an empty string vacuously so).  `strip()` with no arguments
removes leading and trailing whitespace, so the stripped string is empty iff
the whole string is whitespace. -/
def isBlank (search_text : String) : Bool :=
  search_text.data.all Char.isWhitespace

/-- Model of `programLauncher.filter_programs`, computing the new active
view from the immutable original catalog.  A query whose `strip()` is empty
restores a copy of the original; otherwise every extract result with score
`>= 60` contributes the descriptor at `choice_texts.index(result[0])` — the
index of the FIRST occurrence of the matched text, exactly as the Python
loop computes it (the index carried by the result itself is ignored). -/
def filter_programs (scorer : String → String → Nat) (search_text : String)
    (original : List ProgramDescriptor) : List ProgramDescriptor :=
  if isBlank search_text then
    original
  else
    let choice_texts := original.map combinedText
    let results := extract scorer search_text choice_texts
    (results.filter (fun r => 60 ≤ r.2.1)).filterMap
      (fun r => original.get? (choice_texts.indexOf r.1))

/-- Descriptor-level ranking pipeline (spec side): score each catalog entry
directly and sort stably by descending score.  Under distinct searchable
texts, `filter_programs` provably agrees with filtering this list. -/
def rankedPrograms (scorer : String → String → Nat) (search_text : String)
    (original : List ProgramDescriptor) : List (ProgramDescriptor × Nat × Nat) :=
  List.insertionSort rankLE
    (original.enum.map (fun it => (it.2, scorer search_text (combinedText it.2), it.1)))

/-- A scorer instance used for concrete counterexamples: maximal score 100
exactly on identical strings, 0 otherwise (rapidfuzz's `WRatio` likewise
returns 100 when the processed query equals the processed choice). -/
def exactScorer (q t : String) : Nat :=
  if q = t then 100 else 0

/-- A scorer instance assigning every choice the same passing score (the
reference scorer does produce equal scores for different texts, which is why
the design calls for a stable tie-break). -/
def uniformScorer (_q _t : String) : Nat := 100

/-- Events emitted by a `Downloader` thread over the lifetime of one job:
`setTotalProgress.emit(total_size)`, `setCurrentProgress.emit(downloaded)`,
`succeeded.emit()` and `failed.emit(str(e))`. -/
inductive DLEvent where
  | totalSize (n : Nat)
  | progress (n : Nat)
  | succeeded
  | failed (msg : String)
deriving DecidableEq, Repr

/-- Abstract observation of one HTTP transfer as `Downloader.run` sees it.
`failEarly msg` covers an exception raised before any signal is emitted
(connection error inside `requests.get`, or the non-2xx status raised by
`response.raise_for_status()`).  `stream cl chunks err` covers a successful
response whose `content-length` header reads `cl` (`0` when the header is
absent) and whose body yields `chunks` (byte counts; `requests` may yield
empty chunks, modeled as size `0`, which the `if chunk:` guard skips);
`err = none` means the transfer completes, `err = some msg` means an
exception with text `msg` interrupts it after the listed chunks were fully
processed (mid-transfer transport error, or a failure of `open`/`write` —
in particular `stream cl [] (some msg)` covers `open` itself failing, which
in the source happens after the total size was already emitted). -/
inductive DownloadInput where
  | failEarly (msg : String)
  | stream (contentLength : Nat) (chunks : List Nat) (err : Option String)
deriving DecidableEq, Repr

/-- The chunk loop of `Downloader.run`: every non-empty chunk is written to
the destination file, added to `downloaded_size`, and the new cumulative
size is emitted. -/
def runLoop (downloaded : Nat) : List Nat → List DLEvent
  | [] => []
  | c :: cs =>
      if c = 0 then runLoop downloaded cs
      else DLEvent.progress (downloaded + c) :: runLoop (downloaded + c) cs

/-- Model of `Downloader.run`: the whole body is wrapped in one
`try/except` whose handler emits `failed.emit(str(e))`, so an early failure
produces a single `failed` event; on a successful response the total size is
emitted first (exactly once), then one progress event per non-empty chunk,
then `succeeded.emit()` — unless an exception interrupts the loop, in which
case the single `failed` event closes the stream instead. -/
def Downloader.run : DownloadInput → List DLEvent
  | .failEarly msg => [DLEvent.failed msg]
  | .stream cl chunks err =>
      DLEvent.totalSize cl ::
        (runLoop 0 chunks ++
          match err with
          | none => [DLEvent.succeeded]
          | some msg => [DLEvent.failed msg])

/-- Terminal events: exactly one of these must close a job's stream. -/
def DLEvent.isTerminal : DLEvent → Bool
  | .succeeded => true
  | .failed _ => true
  | _ => false

/-- Total-size events. -/
def DLEvent.isTotal : DLEvent → Bool
  | .totalSize _ => true
  | _ => false

/-- The payload of a progress event. -/
def DLEvent.progressValue : DLEvent → Option Nat
  | .progress n => some n
  | _ => none

/-- Python's `name.replace(' ', '_')`: the pattern is a single character, so
it is the character-wise substitution of spaces by underscores. -/
def sanitizeName (name : String) : String :=
  String.mk (name.data.map (fun c => if c = ' ' then '_' else c))

/-- Value of `os.path.dirname` on a computed binary path, under the Windows
path semantics the source targets (its literals are `.\bin\...`, `.exe`). -/
def binDir : String := ".\\bin"

/-- The destination path computed by `launch_program` and
`download_succeeded`: the raw f-string
`fr".\bin\{program_name.replace(' ', '_')}.exe"`. -/
def binaryPath (name : String) : String :=
  ".\\bin\\" ++ sanitizeName name ++ ".exe"

/-- One downloader job as constructed by `Downloader(binary_url, binary_path)`. -/
structure Job where
  url : String
  path : String
deriving DecidableEq, Repr

/-- Observable outcome of one invocation of the `launch_program` handler. -/
structure LaunchResult where
  /-- messages passed to `self.log`, in order -/
  logs : List String
  /-- downloader jobs constructed and started -/
  started : List Job
  /-- paths passed to `subprocess.Popen` -/
  spawned : List String
  /-- whether the handler disabled the launch control (download started) -/
  disabledLaunch : Bool
  /-- whether an exception escaped the handler uncaught -/
  raised : Bool
deriving DecidableEq, Repr

/-- Model of `launch_existing_program`: logs the start line, records the
`subprocess.Popen` invocation, then logs either the success line or the
caught spawn error (`popenOk` abstracts whether `Popen` raised; the real
error line appends `str(e)` to the fixed prefix modeled here).  Returns
`(logs, spawned paths)`. -/
def launch_existing_program (popenOk : Bool) (binary_path : String) :
    List String × List String :=
  (("Starting: " ++ binary_path) ::
      (if popenOk then [binary_path ++ " started successfully"]
        else ["Error starting"]),
    [binary_path])

/-- Model of `programLauncher.launch_program`.  `fs` models
`os.path.exists`; `mkdirOk` tells whether `os.makedirs(bin_dir)` would
succeed — the call is NOT wrapped in a `try/except` in the source, so on
failure the exception escapes the handler uncaught; `popenOk` tells whether
`subprocess.Popen` succeeds; `program_data` and `current_row` are the active
view and the selected row at click time. -/
def launch_program (fs : String → Bool) (mkdirOk popenOk : Bool)
    (program_data : List ProgramDescriptor) (current_row : Int) : LaunchResult :=
  if h : 0 ≤ current_row ∧ current_row.toNat < program_data.length then
    let p := program_data.get ⟨current_row.toNat, h.2⟩
    let binary_path := binaryPath p.program
    if fs binary_path then
      let r := launch_existing_program popenOk binary_path
      { logs := "Launch button pressed" :: r.1
        started := []
        spawned := r.2
        disabledLaunch := false
        raised := false }
    else if fs binDir then
      { logs := ["Launch button pressed", "Starting download of " ++ p.program]
        started := [⟨p.binary_url, binary_path⟩]
        spawned := []
        disabledLaunch := true
        raised := false }
    else if mkdirOk then
      { logs := ["Launch button pressed", "Starting download of " ++ p.program,
          "Created directory: " ++ binDir]
        started := [⟨p.binary_url, binary_path⟩]
        spawned := []
        disabledLaunch := true
        raised := false }
    else
      { logs := ["Launch button pressed", "Starting download of " ++ p.program]
        started := []
        spawned := []
        disabledLaunch := false
        raised := true }
  else
    { logs := ["Launch button pressed", "No program selected"]
      started := []
      spawned := []
      disabledLaunch := false
      raised := false }

/-- Observable outcome of the `download_succeeded` slot. -/
structure SucceededResult where
  logs : List String
  spawned : List String
deriving DecidableEq, Repr

/-- Model of `programLauncher.download_succeeded`: the slot re-reads the
CURRENT selection (`self.program_list.currentRow()`) and the CURRENT active
view (`self.program_data`); the `succeeded` signal carries no payload, so
the job that initiated the download is not even available to it.  With an
out-of-bounds selection nothing is spawned. -/
def download_succeeded (popenOk : Bool)
    (program_data : List ProgramDescriptor) (current_row : Int) : SucceededResult :=
  if h : 0 ≤ current_row ∧ current_row.toNat < program_data.length then
    let p := program_data.get ⟨current_row.toNat, h.2⟩
    let r := launch_existing_program popenOk (binaryPath p.program)
    { logs := "Binary downloaded successfully" :: r.1
      spawned := r.2 }
  else
    { logs := ["Binary downloaded successfully"]
      spawned := [] }

/-- The foreground state relevant to the orchestration invariants. -/
structure AppState where
  original : List ProgramDescriptor
  program_data : List ProgramDescriptor
  current_row : Int
  /-- downloader threads currently alive -/
  running : List Job
  /-- whether the launch control accepts clicks -/
  launchEnabled : Bool

/-- State right after a successful `load_data`: both views hold the fetched
catalog, row 0 is selected when it is non-empty (`setCurrentRow(0)`), no
download is running and the launch control is enabled. -/
def initState (catalog : List ProgramDescriptor) : AppState :=
  { original := catalog
    program_data := catalog
    current_row := if catalog.isEmpty then -1 else 0
    running := []
    launchEnabled := true }

/-- Effect of one `launch_program` invocation on the state: newly started
jobs join the running downloads (assigning `self.downloader` overwrites the
previous reference but never stops its thread), and a started download
disables the launch control; otherwise the control keeps its state. -/
def applyLaunch (fs : String → Bool) (mkdirOk popenOk : Bool) (s : AppState) :
    AppState :=
  let r := launch_program fs mkdirOk popenOk s.program_data s.current_row
  { s with
    running := r.started ++ s.running
    launchEnabled := s.launchEnabled && !r.disabledLaunch }

/-- Effect of a terminal downloader event (`succeeded` or `failed`) followed
by the `finished` slot: `download_finished` re-enables the launch control
and drops the downloader reference; thread `j` stops running. -/
def applyTerminal (s : AppState) (j : Job) : AppState :=
  { s with
    running := s.running.erase j
    launchEnabled := true }

/-- Foreground transitions of the launcher under UI-gated interaction: the
launch control can only be clicked while enabled (Qt emits no `clicked`
signal for a disabled button); the search box and the list stay interactive
at all times; a running download eventually delivers one terminal event. -/
inductive Step : AppState → AppState → Prop where
  | click (fs : String → Bool) (mkdirOk popenOk : Bool) (s : AppState) :
      s.launchEnabled = true → Step s (applyLaunch fs mkdirOk popenOk s)
  | search (scorer : String → String → Nat) (q : String) (s : AppState) :
      Step s { s with
        program_data := filter_programs scorer q s.original
        current_row :=
          if (filter_programs scorer q s.original).isEmpty then -1 else 0 }
  | select (i : Int) (s : AppState) :
      Step s { s with current_row := i }
  | terminal (j : Job) (s : AppState) :
      j ∈ s.running → Step s (applyTerminal s j)

/-- Reachability from the post-load state through UI-gated transitions. -/
def Reachable (catalog : List ProgramDescriptor) (s : AppState) : Prop :=
  Relation.ReflTransGen Step (initState catalog) s

/-- The ordering contract of §4.2 for a non-empty query result: scores are
non-increasing along the result, and entries with equal score keep the
relative order they have in the original catalog. -/
def orderedByScore (scorer : String → String → Nat) (q : String)
    (original result : List ProgramDescriptor) : Prop :=
  result.Pairwise (fun p p' =>
    scorer q (combinedText p') ≤ scorer q (combinedText p) ∧
      (scorer q (combinedText p) = scorer q (combinedText p') →
        original.indexOf p < original.indexOf p'))

/-- The delivery contract of §5 for one download job's event stream:
exactly one terminal event and it closes the stream; the total size is
announced at most once, only for a successful response, and before any
other event; each progress event carries the cumulative number of bytes
written so far (the sum of the non-empty chunks already processed). -/
def eventsWellFormed (input : DownloadInput) (evs : List DLEvent) : Prop :=
  evs.countP DLEvent.isTerminal = 1 ∧
  evs.getLast?.map DLEvent.isTerminal = some true ∧
  evs.countP DLEvent.isTotal ≤ 1 ∧
  (∀ e ∈ evs, e.isTotal = true →
    (∃ cl chunks err, input = DownloadInput.stream cl chunks err) ∧
      evs.head? = some e) ∧
  (∀ cl chunks err, input = DownloadInput.stream cl chunks err →
    (evs.filterMap DLEvent.progressValue).length =
        (chunks.filter (fun c => c ≠ 0)).length ∧
      ∀ k (hk : k < (evs.filterMap DLEvent.progressValue).length),
        (evs.filterMap DLEvent.progressValue).get ⟨k, hk⟩ =
          ((chunks.filter (fun c => c ≠ 0)).take (k + 1)).sum)

/-- The descriptor of the spec's end-to-end scenarios (§8, scenario A/C/D). -/
def fooDescriptor : ProgramDescriptor :=
  ⟨"Foo", "1.0", "# Foo", "http://x/foo.exe"⟩

/-- A second descriptor, used where a selection change matters. -/
def barDescriptor : ProgramDescriptor :=
  ⟨"Bar", "2.0", "# Bar", "http://x/bar.exe"⟩

/-- The one-element catalog of scenario A. -/
def fooCatalog : List ProgramDescriptor := [fooDescriptor]

/-- Distinct descriptors (unique display names, distinct binary URLs) whose
searchable texts nevertheless coincide: both concatenate to `"p 1 2 r"`. -/
def dupA : ProgramDescriptor := ⟨"p", "1 2", "r", "u1"⟩

/-- See `dupA`: same searchable text `"p 1 2 r"`, different name and URL. -/
def dupB : ProgramDescriptor := ⟨"p 1", "2", "r", "u2"⟩

/-- A third descriptor with the searchable text `"p 1 2 r"`. -/
def dupC : ProgramDescriptor := ⟨"p", "1 2", "r", "u3"⟩

/-- A descriptor whose searchable text `"q 1 r"` differs from the others. -/
def dupD : ProgramDescriptor := ⟨"q", "1", "r", "u4"⟩

/-- A state in which one download is already in flight (as after a click
that started a download: the control is disabled, one thread runs). -/
def inFlightState : AppState :=
  { original := fooCatalog
    program_data := fooCatalog
    current_row := 0
    running := [⟨"http://x/old.exe", ".\\bin\\Old.exe"⟩]
    launchEnabled := false }

/- ------------------------------------------------------------------ -/
/- Theorems.                                                           -/
/- ------------------------------------------------------------------ -/

/-- C3: for every catalog and every scorer, querying with an empty or
whitespace-only string returns the original catalog unchanged — in
particular the active view has the same length and the same order as the
original (reset property). -/
theorem c3_blank_query_resets (scorer : String → String → Nat)
    (search_text : String) (original : List ProgramDescriptor)
    (h : isBlank search_text = true) :
    filter_programs scorer search_text original = original := by
  simp [filter_programs, h]

/-- C3 witness: the two-space query resets to scenario A's catalog. -/
theorem c3_blank_query_resets_witness :
    isBlank "  " = true ∧
      filter_programs exactScorer "  " fooCatalog = fooCatalog :=
  ⟨by decide, c3_blank_query_resets exactScorer "  " fooCatalog (by decide)⟩

/-- C9 counterexample: for the descriptor named "Foo" the spawned
invocation uses exactly the raw Windows-separator string `.\bin\Foo.exe`
built by the f-string `fr".\bin\{...}.exe"` — it is not the forward-slash
string `./bin/Foo.exe` the claim names. -/
theorem c9_counterexample :
    (launch_program (fun _ => true) true true fooCatalog 0).spawned =
        [".\\bin\\Foo.exe"] ∧
      (launch_program (fun _ => true) true true fooCatalog 0).spawned ≠
        ["./bin/Foo.exe"] := by
  decide

/-- C9 (amended): the destination path is a pure, deterministic function of
the descriptor's name alone — every space replaced by an underscore, the
platform executable suffix `.exe` appended, under the fixed local bin
subdirectory — and a launch of a selected descriptor whose file exists
spawns exactly that path; for the name "Foo" the path is the Windows-style
string `.\bin\Foo.exe` (not `./bin/Foo.exe`). -/
theorem c9_destination_path (fs : String → Bool) (mkdirOk popenOk : Bool)
    (program_data : List ProgramDescriptor) (current_row : Int)
    (h0 : 0 ≤ current_row) (hlt : current_row.toNat < program_data.length)
    (hfs : fs (binaryPath ((program_data.get ⟨current_row.toNat, hlt⟩).program)) = true) :
    (launch_program fs mkdirOk popenOk program_data current_row).spawned =
        [".\\bin\\" ++
          sanitizeName ((program_data.get ⟨current_row.toNat, hlt⟩).program) ++ ".exe"] ∧
      binaryPath "Foo" = ".\\bin\\Foo.exe" ∧
      binaryPath "My App" = ".\\bin\\My_App.exe" := by
  refine ⟨?_, by decide, by decide⟩
  simp only [launch_program, dif_pos (And.intro h0 hlt)]
  rw [hfs]
  simp [launch_existing_program, binaryPath]

/-- C9 witness: scenario D's launch of the existing `.\bin\Foo.exe`. -/
theorem c9_destination_path_witness :
    (launch_program (fun _ => true) true true fooCatalog 0).spawned =
        [".\\bin\\" ++ sanitizeName ((fooCatalog.get ⟨0, by decide⟩).program) ++ ".exe"] ∧
      binaryPath "Foo" = ".\\bin\\Foo.exe" ∧
      binaryPath "My App" = ".\\bin\\My_App.exe" :=
  c9_destination_path (fun _ => true) true true fooCatalog 0 (by decide) (by decide)
    (by decide)

/-- C10: the `succeeded` slot recomputes the launched path from whichever
descriptor is selected in the active view at completion time — it is a
function only of the completion-time view and row (the `succeeded` signal
carries no payload, so the initiating descriptor is not available to it) —
and with an out-of-bounds selection no process is spawned at all. -/
theorem c10_succeeded_uses_current_selection (popenOk : Bool)
    (program_data : List ProgramDescriptor) (current_row : Int) :
    (∀ h : 0 ≤ current_row ∧ current_row.toNat < program_data.length,
        (download_succeeded popenOk program_data current_row).spawned =
          [binaryPath ((program_data.get ⟨current_row.toNat, h.2⟩).program)]) ∧
      (¬(0 ≤ current_row ∧ current_row.toNat < program_data.length) →
        (download_succeeded popenOk program_data current_row).spawned = []) := by
  constructor
  · intro h
    simp only [download_succeeded, dif_pos h, launch_existing_program]
  · intro h
    simp only [download_succeeded, dif_neg h]

/-- C10 witness: a download initiated while "Foo" was selected completes
after the selection moved to row 1 ("Bar"): the spawned path is Bar's; with
the selection out of bounds (row 5) nothing is spawned. -/
theorem c10_succeeded_uses_current_selection_witness :
    (download_succeeded true [fooDescriptor, barDescriptor] 1).spawned =
        [".\\bin\\Bar.exe"] ∧
      (download_succeeded true [fooDescriptor, barDescriptor] 5).spawned = [] := by
  constructor
  · have h := (c10_succeeded_uses_current_selection true
      [fooDescriptor, barDescriptor] 1).1 ⟨by decide, by decide⟩
    rw [h]; decide
  · exact (c10_succeeded_uses_current_selection true
      [fooDescriptor, barDescriptor] 5).2 (by decide)

/-- C1 counterexample: a launch request on a selected descriptor whose
destination file is absent spawns NO Downloader when the bin directory is
missing and `os.makedirs` fails — the request dies on the uncaught
exception before the Downloader is constructed, refuting "when the file is
absent it spawns exactly one Downloader job". -/
theorem c1_counterexample :
    (fun _ => false : String → Bool) (binaryPath fooDescriptor.program) = false ∧
      (launch_program (fun _ => false) false true fooCatalog 0).started = [] ∧
      (launch_program (fun _ => false) false true fooCatalog 0).raised = true := by
  decide

/-- C1 (amended): for a launch request on a selected descriptor, provided
the destination directory exists or its recursive creation succeeds, the
handler spawns a Downloader iff the destination path does not exist: when
the file exists it proceeds directly to launching (spawning the path, zero
Downloader jobs), and when absent it starts exactly one Downloader bound to
the descriptor's `binary_url` and the destination path (and spawns no
process yet). -/
theorem c1_download_iff_absent (fs : String → Bool) (mkdirOk popenOk : Bool)
    (program_data : List ProgramDescriptor) (current_row : Int)
    (h0 : 0 ≤ current_row) (hlt : current_row.toNat < program_data.length)
    (hdir : fs binDir = true ∨ mkdirOk = true) :
    (fs (binaryPath ((program_data.get ⟨current_row.toNat, hlt⟩).program)) = true →
        (launch_program fs mkdirOk popenOk program_data current_row).started = [] ∧
          (launch_program fs mkdirOk popenOk program_data current_row).spawned =
            [binaryPath ((program_data.get ⟨current_row.toNat, hlt⟩).program)]) ∧
      (fs (binaryPath ((program_data.get ⟨current_row.toNat, hlt⟩).program)) = false →
        (launch_program fs mkdirOk popenOk program_data current_row).started =
            [⟨(program_data.get ⟨current_row.toNat, hlt⟩).binary_url,
              binaryPath ((program_data.get ⟨current_row.toNat, hlt⟩).program)⟩] ∧
          (launch_program fs mkdirOk popenOk program_data current_row).spawned = []) := by
  constructor
  · intro hfs
    simp only [launch_program, dif_pos (And.intro h0 hlt)]
    rw [hfs]
    simp [launch_existing_program]
  · intro hfs
    simp only [launch_program, dif_pos (And.intro h0 hlt)]
    rw [hfs]
    rcases hdir with hd | hm
    · rw [hd]; simp
    · by_cases hd : fs binDir
      · rw [hd]; simp
      · simp only [Bool.false_eq_true, if_false, eq_self_iff_true,
          Bool.not_eq_true] at hd
        rw [hd, hm]
        simp

/-- C1 witness: scenario D (file exists, zero Downloader jobs) and scenario
C (file absent, exactly one Downloader bound to Foo's URL and path). -/
theorem c1_download_iff_absent_witness :
    ((launch_program (fun _ => true) true true fooCatalog 0).started = [] ∧
        (launch_program (fun _ => true) true true fooCatalog 0).spawned =
          [binaryPath fooDescriptor.program]) ∧
      ((launch_program (fun p => p = binDir) true true fooCatalog 0).started =
          [⟨fooDescriptor.binary_url, binaryPath fooDescriptor.program⟩] ∧
        (launch_program (fun p => p = binDir) true true fooCatalog 0).spawned = []) := by
  constructor
  · exact (c1_download_iff_absent (fun _ => true) true true fooCatalog 0 (by decide)
      (by decide) (Or.inl (by decide))).1 (by decide)
  · exact (c1_download_iff_absent (fun p => p = binDir) true true fooCatalog 0
      (by decide) (by decide) (Or.inl (by decide))).2 (by decide)

/-- C8 counterexample: when the bin directory is absent and its creation
fails, the handler logs only the two informational lines — no error message
at all — and the exception escapes the handler uncaught instead of any
Failed-then-Idle state handling; refuting "the error is logged with a
human-readable message". -/
theorem c8_counterexample :
    launch_program (fun _ => false) false true [barDescriptor] 0 =
      { logs := ["Launch button pressed", "Starting download of Bar"]
        started := []
        spawned := []
        disabledLaunch := false
        raised := true } := by
  decide

/-- C8 (amended): when the destination file is absent, the directory is
absent and its recursive creation fails, no Downloader is spawned and the
launch control is left enabled (so the user can retry), but the launcher
logs no error message — the log ends with the "Starting download" line —
and the exception propagates uncaught out of the handler; there is no
Failed-state handling. -/
theorem c8_mkdir_failure (fs : String → Bool) (popenOk : Bool)
    (program_data : List ProgramDescriptor) (current_row : Int)
    (h0 : 0 ≤ current_row) (hlt : current_row.toNat < program_data.length)
    (hfile : fs (binaryPath ((program_data.get ⟨current_row.toNat, hlt⟩).program)) = false)
    (hdir : fs binDir = false) :
    launch_program fs false popenOk program_data current_row =
      { logs := ["Launch button pressed",
          "Starting download of " ++ (program_data.get ⟨current_row.toNat, hlt⟩).program]
        started := []
        spawned := []
        disabledLaunch := false
        raised := true } := by
  simp only [launch_program, dif_pos (And.intro h0 hlt)]
  rw [hfile, hdir]
  simp

/-- C8 witness: Foo's catalog on an empty filesystem with failing mkdir. -/
theorem c8_mkdir_failure_witness :
    launch_program (fun _ => false) false false fooCatalog 0 =
      { logs := ["Launch button pressed", "Starting download of Foo"]
        started := []
        spawned := []
        disabledLaunch := false
        raised := true } :=
  c8_mkdir_failure (fun _ => false) false fooCatalog 0 (by decide) (by decide)
    (by decide) (by decide)

/-- Every event produced by the chunk loop is a progress event. -/
theorem runLoop_mem (d : Nat) (cs : List Nat) :
    ∀ e ∈ runLoop d cs, ∃ n, e = DLEvent.progress n := by
  induction cs generalizing d with
  | nil => intro e he; simp [runLoop] at he
  | cons c cs ih =>
    intro e he
    by_cases hc : c = 0
    · exact ih d e (by simpa [runLoop, hc] using he)
    · rw [show runLoop d (c :: cs) =
          DLEvent.progress (d + c) :: runLoop (d + c) cs by simp [runLoop, hc]] at he
      rcases List.mem_cons.mp he with h | h
      · exact ⟨d + c, h⟩
      · exact ih (d + c) e h

/-- The chunk loop emits no terminal event. -/
theorem runLoop_countP_terminal (d : Nat) (cs : List Nat) :
    (runLoop d cs).countP DLEvent.isTerminal = 0 := by
  rw [List.countP_eq_zero]
  intro e he
  obtain ⟨n, rfl⟩ := runLoop_mem d cs e he
  simp [DLEvent.isTerminal]

/-- The chunk loop emits no total-size event. -/
theorem runLoop_countP_total (d : Nat) (cs : List Nat) :
    (runLoop d cs).countP DLEvent.isTotal = 0 := by
  rw [List.countP_eq_zero]
  intro e he
  obtain ⟨n, rfl⟩ := runLoop_mem d cs e he
  simp [DLEvent.isTotal]

/-- The progress payloads of the chunk loop started at `d` are the running
totals, above `d`, of the non-empty chunk sizes. -/
theorem runLoop_progress_spec (cs : List Nat) : ∀ d : Nat,
    ((runLoop d cs).filterMap DLEvent.progressValue).length =
        (cs.filter (fun c => c ≠ 0)).length ∧
      ∀ k (hk : k < ((runLoop d cs).filterMap DLEvent.progressValue).length),
        ((runLoop d cs).filterMap DLEvent.progressValue).get ⟨k, hk⟩ =
          d + ((cs.filter (fun c => c ≠ 0)).take (k + 1)).sum := by
  induction cs with
  | nil =>
    intro d
    constructor
    · simp [runLoop]
    · intro k hk
      simp [runLoop] at hk
  | cons c cs ih =>
    intro d
    by_cases hc : c = 0
    · subst hc
      simpa [runLoop] using ih d
    · rw [show runLoop d (c :: cs) =
          DLEvent.progress (d + c) :: runLoop (d + c) cs by simp [runLoop, hc]]
      rw [show (c :: cs).filter (fun c => c ≠ 0) =
          c :: cs.filter (fun c => c ≠ 0) by simp [hc]]
      obtain ⟨ihlen, ihget⟩ := ih (d + c)
      rw [show (DLEvent.progress (d + c) :: runLoop (d + c) cs).filterMap
            DLEvent.progressValue =
          (d + c) :: (runLoop (d + c) cs).filterMap DLEvent.progressValue by
        simp [List.filterMap_cons, DLEvent.progressValue]]
      constructor
      · simp [ihlen]
      · intro k hk
        match k with
        | 0 => simp
        | Nat.succ k =>
          have hk' : k < ((runLoop (d + c) cs).filterMap DLEvent.progressValue).length := by
            simpa using Nat.lt_of_succ_lt_succ hk
          have := ihget k hk'
          simp only [List.get_cons_succ, this, List.take_succ_cons, List.sum_cons]
          omega

/-- Well-formedness of a completed stream closed by any terminal event. -/
theorem stream_events_wellformed (cl : Nat) (chunks : List Nat)
    (err : Option String) (t : DLEvent) (ht1 : t.isTerminal = true)
    (ht2 : t.progressValue = none) (ht3 : t.isTotal = false) :
    eventsWellFormed (DownloadInput.stream cl chunks err)
      ((DLEvent.totalSize cl :: runLoop 0 chunks) ++ [t]) := by
  have hpvlist : ((DLEvent.totalSize cl :: runLoop 0 chunks) ++ [t]).filterMap
      DLEvent.progressValue = (runLoop 0 chunks).filterMap DLEvent.progressValue := by
    rw [List.cons_append, List.filterMap_cons, List.filterMap_append,
      List.filterMap_cons, List.filterMap_nil, ht2]
    simp [DLEvent.progressValue]
  refine ⟨?_, ?_, ?_, ?_, ?_⟩
  · rw [List.countP_append, List.countP_cons, List.countP_cons, List.countP_nil,
      runLoop_countP_terminal, ht1]
    simp [DLEvent.isTerminal]
  · rw [List.getLast?_concat]
    rw [Option.map_some']
    rw [ht1]
  · rw [List.countP_append, List.countP_cons, List.countP_cons, List.countP_nil,
      runLoop_countP_total, ht3]
    simp [DLEvent.isTotal]
  · intro e he htote
    rw [List.mem_append, List.mem_cons] at he
    rcases he with he1 | he2
    · rcases he1 with he1 | he1
      · subst he1
        exact ⟨⟨cl, chunks, err, rfl⟩, rfl⟩
      · obtain ⟨n, rfl⟩ := runLoop_mem 0 chunks e he1
        simp [DLEvent.isTotal] at htote
    · rw [List.mem_singleton] at he2
      subst he2
      rw [ht3] at htote
      cases htote
  · intro cl' chunks' err' h
    injection h with h1 h2 h3
    subst h1; subst h2
    rw [hpvlist]
    obtain ⟨hlen, hget⟩ := runLoop_progress_spec chunks 0
    refine ⟨hlen, ?_⟩
    intro k hk
    rw [hget k hk]
    omega

/-- C6: for every download job, the emitted event sequence is well-formed:
the total size is announced at most once, only after a successful response
and before anything else; each progress event carries the cumulative bytes
written so far; and exactly one terminal event (`succeeded` or `failed`)
closes the stream — never both, never twice. -/
theorem c6_event_stream_wellformed (input : DownloadInput) :
    eventsWellFormed input (Downloader.run input) := by
  cases input with
  | failEarly msg =>
    refine ⟨by simp [Downloader.run, DLEvent.isTerminal], ?_, ?_, ?_, ?_⟩
    · simp [Downloader.run, DLEvent.isTerminal]
    · simp [Downloader.run, DLEvent.isTotal]
    · intro e he htot
      rw [Downloader.run] at he
      simp only [List.mem_singleton] at he
      subst he
      simp [DLEvent.isTotal] at htot
    · intro cl chunks err h
      exact absurd h (by simp)
  | stream cl chunks err =>
    have heq : Downloader.run (DownloadInput.stream cl chunks err) =
        (DLEvent.totalSize cl :: runLoop 0 chunks) ++ [match err with
          | none => DLEvent.succeeded
          | some msg => DLEvent.failed msg] := by
      cases err <;> simp [Downloader.run]
    rw [heq]
    cases err with
    | none => exact stream_events_wellformed cl chunks none DLEvent.succeeded rfl rfl rfl
    | some msg =>
      exact stream_events_wellformed cl chunks (some msg) (DLEvent.failed msg) rfl rfl rfl

/-- C6 witness: a concrete two-chunk stream (16 bytes announced, chunks of
8, 0 and 8 bytes, no error) satisfies the delivery contract. -/
theorem c6_event_stream_wellformed_witness :
    eventsWellFormed (DownloadInput.stream 16 [8, 0, 8] none)
      (Downloader.run (DownloadInput.stream 16 [8, 0, 8] none)) :=
  c6_event_stream_wellformed (DownloadInput.stream 16 [8, 0, 8] none)

/-- The launch handler either starts nothing and leaves the control alone,
or starts exactly one downloader job and disables the control. -/
theorem launch_program_started_cases (fs : String → Bool) (mkdirOk popenOk : Bool)
    (program_data : List ProgramDescriptor) (current_row : Int) :
    ((launch_program fs mkdirOk popenOk program_data current_row).started = [] ∧
        (launch_program fs mkdirOk popenOk program_data current_row).disabledLaunch =
          false) ∨
      (∃ j : Job,
        (launch_program fs mkdirOk popenOk program_data current_row).started = [j] ∧
          (launch_program fs mkdirOk popenOk program_data current_row).disabledLaunch =
            true) := by
  unfold launch_program
  split
  · dsimp only
    split_ifs
    · exact Or.inl ⟨rfl, rfl⟩
    · exact Or.inr ⟨_, rfl, rfl⟩
    · exact Or.inr ⟨_, rfl, rfl⟩
    · exact Or.inl ⟨rfl, rfl⟩
  · exact Or.inl ⟨rfl, rfl⟩

/-- A member of a list with at most one element is its only element. -/
theorem mem_of_length_le_one {α : Type} {l : List α} {a : α}
    (hm : a ∈ l) (hl : l.length ≤ 1) : l = [a] := by
  cases l with
  | nil => cases hm
  | cons b t =>
    cases t with
    | nil =>
      rcases List.mem_singleton.mp hm with rfl
      rfl
    | cons c u => simp at hl

/-- C7 counterexample: invoking the `launch_program` handler while a
download is already in flight (as a headless caller can — the source has no
state-machine guard, only the UI disablement) is not a no-op: it starts a
second concurrent Downloader, so two jobs run at once. -/
theorem c7_counterexample :
    inFlightState.running.length = 1 ∧
      (applyLaunch (fun _ => false) true true inFlightState).running.length = 2 ∧
      (launch_program (fun _ => false) true true inFlightState.program_data
          inFlightState.current_row).started ≠ [] := by
  decide

/-- C7 (amended): the reference guards re-entrancy only through the UI —
the launch control is disabled while a download is in flight and re-enabled
by `download_finished`.  Under UI-gated interaction (a click can only land
while the control is enabled) every reachable state has at most one
downloader in flight, and whenever the control is enabled no download is
running; a direct (headless) handler call while a download is in flight
does start a second concurrent Downloader (see the counterexample). -/
theorem c7_single_download_invariant (catalog : List ProgramDescriptor)
    (s : AppState) (h : Reachable catalog s) :
    s.running.length ≤ 1 ∧ (s.launchEnabled = true → s.running = []) := by
  induction h with
  | refl => exact ⟨by simp [initState], fun _ => rfl⟩
  | tail _hsteps hstep ih =>
    rename_i b _c
    cases hstep with
    | click fs mkdirOk popenOk _s he =>
      have hrun : b.running = [] := ih.2 he
      rcases launch_program_started_cases fs mkdirOk popenOk b.program_data
          b.current_row with ⟨h1, h2⟩ | ⟨j, h1, h2⟩
      · constructor
        · simp [applyLaunch, h1, hrun]
        · intro _
          simp [applyLaunch, h1, hrun]
      · constructor
        · simp [applyLaunch, h1, hrun]
        · intro hen
          simp only [applyLaunch, h2] at hen
          simp at hen
    | search scorer q _s =>
      exact ih
    | select i _s =>
      exact ih
    | terminal j _s hj =>
      have hb : b.running = [j] := mem_of_length_le_one hj ih.1
      constructor
      · simp [applyTerminal, hb, List.erase_cons]
      · intro _
        simp [applyTerminal, hb, List.erase_cons]

/-- C7 witness: the state reached by loading Foo's catalog and clicking
launch on an empty filesystem (a download starts) satisfies the invariant:
one job in flight, control disabled. -/
theorem c7_single_download_invariant_witness :
    (applyLaunch (fun _ => false) true true (initState fooCatalog)).running.length ≤ 1 ∧
      ((applyLaunch (fun _ => false) true true (initState fooCatalog)).launchEnabled =
          true →
        (applyLaunch (fun _ => false) true true (initState fooCatalog)).running = []) :=
  c7_single_download_invariant fooCatalog _
    (Relation.ReflTransGen.tail Relation.ReflTransGen.refl
      (Step.click (fun _ => false) true true (initState fooCatalog) rfl))

/-- Inserting commutes with mapping a payload-only transformation (one that
keeps score and index), since the ranking only reads score and index. -/
theorem orderedInsert_map_rank {α β : Type} (f : α × Nat × Nat → β × Nat × Nat)
    (hf : ∀ x, (f x).2 = x.2) (a : α × Nat × Nat) :
    ∀ l : List (α × Nat × Nat),
      (l.orderedInsert rankLE a).map f = (l.map f).orderedInsert rankLE (f a)
  | [] => rfl
  | b :: l => by
    simp only [List.orderedInsert, List.map_cons]
    have hiff : rankLE (f a) (f b) ↔ rankLE a b := by
      unfold rankLE
      rw [hf a, hf b]
    by_cases h : rankLE a b
    · rw [if_pos h, if_pos (hiff.mpr h), List.map_cons, List.map_cons]
    · rw [if_neg h, if_neg (fun hc => h (hiff.mp hc)), List.map_cons,
        orderedInsert_map_rank f hf a l]

/-- Sorting commutes with mapping a payload-only transformation. -/
theorem insertionSort_map_rank {α β : Type} (f : α × Nat × Nat → β × Nat × Nat)
    (hf : ∀ x, (f x).2 = x.2) :
    ∀ l : List (α × Nat × Nat),
      (List.insertionSort rankLE l).map f = List.insertionSort rankLE (l.map f)
  | [] => rfl
  | b :: l => by
    simp only [List.insertionSort, List.map_cons]
    rw [orderedInsert_map_rank f hf, insertionSort_map_rank f hf l]

/-- The text-level extraction the source performs is the image of the
descriptor-level ranking under "replace the descriptor by its text". -/
theorem extract_map_eq (scorer : String → String → Nat) (q : String)
    (original : List ProgramDescriptor) :
    extract scorer q (original.map combinedText) =
      (rankedPrograms scorer q original).map
        (fun r => (combinedText r.1, r.2)) := by
  unfold extract rankedPrograms
  rw [insertionSort_map_rank (fun r => (combinedText r.1, r.2)) (fun x => rfl)]
  congr 1
  rw [← List.map_enum, List.map_map, List.map_map]
  apply List.map_congr_left
  intro it _hit
  rfl

/-- Every ranked triple records the descriptor found at its index and the
score of that descriptor's searchable text. -/
theorem mem_rankedPrograms_facts {scorer : String → String → Nat} {q : String}
    {original : List ProgramDescriptor} {r : ProgramDescriptor × Nat × Nat}
    (h : r ∈ rankedPrograms scorer q original) :
    original.get? r.2.2 = some r.1 ∧ r.2.1 = scorer q (combinedText r.1) := by
  unfold rankedPrograms at h
  have h' : r ∈ original.enum.map
      (fun it => (it.2, scorer q (combinedText it.2), it.1)) :=
    (List.perm_insertionSort rankLE _).mem_iff.mp h
  obtain ⟨⟨i, p⟩, hmem, heq⟩ := List.mem_map.mp h'
  have hg : original[i]? = some p := List.mem_enum_iff_getElem?.mp hmem
  cases heq
  refine ⟨?_, rfl⟩
  rw [List.get?_eq_getElem?]
  exact hg

/-- The enumeration of a list never repeats (its indices are distinct). -/
theorem enum_nodup {α : Type} (l : List α) : l.enum.Nodup := by
  apply List.Nodup.of_map Prod.fst
  rw [List.enum_map_fst]
  exact List.nodup_range _

/-- The ranked list never repeats a triple. -/
theorem rankedPrograms_nodup (scorer : String → String → Nat) (q : String)
    (original : List ProgramDescriptor) :
    (rankedPrograms scorer q original).Nodup := by
  unfold rankedPrograms
  rw [(List.perm_insertionSort rankLE _).nodup_iff]
  refine List.Nodup.map_on ?_ (enum_nodup original)
  intro x _hx y _hy hxy
  have h1 : x.2 = y.2 := congrArg (fun z => z.1) hxy
  have h2 : x.1 = y.1 := congrArg (fun z => z.2.2) hxy
  cases x
  cases y
  simp only at h1 h2
  rw [h1, h2]

/-- In a list without duplicates, `index()` recovers the position any
element was read from. -/
theorem indexOf_eq_of_get? {α : Type} [DecidableEq α] {l : List α} {i : Nat}
    {p : α} (hnd : l.Nodup) (h : l.get? i = some p) : l.indexOf p = i := by
  rw [List.get?_eq_getElem?] at h
  obtain ⟨hlt, heq⟩ := List.getElem?_eq_some.mp h
  rw [← heq]
  exact List.indexOf_getElem hnd i hlt

/-- The recovery step of the Python loop — `index()` into the choice texts
followed by a catalog lookup — maps each kept triple back to its own
descriptor, provided the searchable texts are pairwise distinct. -/
theorem filterMap_recover_eq_map (original : List ProgramDescriptor)
    (hnodup : (original.map combinedText).Nodup) :
    ∀ L : List (ProgramDescriptor × Nat × Nat),
      (∀ r ∈ L, original.get? r.2.2 = some r.1) →
      ((L.map (fun r => (combinedText r.1, r.2))).filter
          (fun r => 60 ≤ r.2.1)).filterMap
          (fun r => original.get? ((original.map combinedText).indexOf r.1)) =
        (L.filter (fun r => 60 ≤ r.2.1)).map (fun r => r.1)
  | [], _ => rfl
  | r :: L, hmem => by
    have hr : original.get? r.2.2 = some r.1 := hmem r (List.mem_cons_self r L)
    have hL : ∀ x ∈ L, original.get? x.2.2 = some x.1 := fun x hx =>
      hmem x (List.mem_cons_of_mem r hx)
    have htext : (original.map combinedText).get? r.2.2 = some (combinedText r.1) := by
      rw [List.get?_eq_getElem?, List.getElem?_map, ← List.get?_eq_getElem?, hr,
        Option.map_some']
    have hidx : (original.map combinedText).indexOf (combinedText r.1) = r.2.2 :=
      indexOf_eq_of_get? hnodup htext
    have hrec : original.get? ((original.map combinedText).indexOf (combinedText r.1)) =
        some r.1 := by
      rw [hidx]
      exact hr
    by_cases hs : 60 ≤ r.2.1
    · rw [List.map_cons, List.filter_cons, List.filter_cons]
      rw [if_pos (by simpa using hs), if_pos (by simpa using hs)]
      rw [List.filterMap_cons, List.map_cons]
      simp only [hrec]
      rw [filterMap_recover_eq_map original hnodup L hL]
    · rw [List.map_cons, List.filter_cons, List.filter_cons]
      rw [if_neg (by simpa using hs), if_neg (by simpa using hs)]
      exact filterMap_recover_eq_map original hnodup L hL

/-- Under pairwise-distinct searchable texts, `filter_programs` agrees with
the descriptor-level pipeline: rank, keep scores ≥ 60, project. -/
theorem filter_programs_eq_ranked (scorer : String → String → Nat) (q : String)
    (original : List ProgramDescriptor) (hq : isBlank q = false)
    (hnodup : (original.map combinedText).Nodup) :
    filter_programs scorer q original =
      ((rankedPrograms scorer q original).filter (fun r => 60 ≤ r.2.1)).map
        (fun r => r.1) := by
  unfold filter_programs
  rw [if_neg (by simp [hq])]
  dsimp only
  rw [extract_map_eq]
  exact filterMap_recover_eq_map original hnodup (rankedPrograms scorer q original)
    (fun r hr => (mem_rankedPrograms_facts hr).1)

/-- Membership in the filtered view, under distinct searchable texts: the
descriptors kept are exactly the catalog members scoring at least 60. -/
theorem mem_filter_programs_iff (scorer : String → String → Nat) (q : String)
    (original : List ProgramDescriptor) (hq : isBlank q = false)
    (hnodup : (original.map combinedText).Nodup) (p : ProgramDescriptor) :
    p ∈ filter_programs scorer q original ↔
      p ∈ original ∧ 60 ≤ scorer q (combinedText p) := by
  rw [filter_programs_eq_ranked scorer q original hq hnodup]
  constructor
  · intro hp
    obtain ⟨r, hr, rfl⟩ := List.mem_map.mp hp
    have hr' : r ∈ rankedPrograms scorer q original := List.mem_of_mem_filter hr
    obtain ⟨hget, hscore⟩ := mem_rankedPrograms_facts hr'
    have hkeep : 60 ≤ r.2.1 := by simpa using (List.mem_filter.mp hr).2
    exact ⟨List.get?_mem hget, hscore ▸ hkeep⟩
  · rintro ⟨hmem, hscore⟩
    obtain ⟨n, hn⟩ := List.mem_iff_get?.mp hmem
    have henum : (n, p) ∈ original.enum := by
      apply List.mem_enum_iff_getElem?.mpr
      rw [← List.get?_eq_getElem?]
      exact hn
    have hrank : (p, scorer q (combinedText p), n) ∈ rankedPrograms scorer q original := by
      unfold rankedPrograms
      exact (List.perm_insertionSort rankLE _).mem_iff.mpr
        (List.mem_map.mpr ⟨(n, p), henum, rfl⟩)
    exact List.mem_map.mpr ⟨(p, scorer q (combinedText p), n),
      List.mem_filter.mpr ⟨hrank, by simpa using hscore⟩, rfl⟩

/-- Under distinct searchable texts the filtered view has no duplicates. -/
theorem filter_programs_nodup (scorer : String → String → Nat) (q : String)
    (original : List ProgramDescriptor) (hq : isBlank q = false)
    (hnodup : (original.map combinedText).Nodup) :
    (filter_programs scorer q original).Nodup := by
  have hnd : original.Nodup := List.Nodup.of_map combinedText hnodup
  rw [filter_programs_eq_ranked scorer q original hq hnodup]
  have hkept : ((rankedPrograms scorer q original).filter
      (fun r => 60 ≤ r.2.1)).Nodup :=
    List.Pairwise.sublist (List.filter_sublist _) (rankedPrograms_nodup scorer q original)
  refine List.Nodup.map_on ?_ hkept
  intro x hx y hy hxy
  obtain ⟨hgx, hsx⟩ := mem_rankedPrograms_facts (List.mem_of_mem_filter hx)
  obtain ⟨hgy, hsy⟩ := mem_rankedPrograms_facts (List.mem_of_mem_filter hy)
  have hix : original.indexOf x.1 = x.2.2 := indexOf_eq_of_get? hnd hgx
  have hiy : original.indexOf y.1 = y.2.2 := indexOf_eq_of_get? hnd hgy
  have hidx : x.2.2 = y.2.2 := by rw [← hix, ← hiy, hxy]
  have hsc : x.2.1 = y.2.1 := by rw [hsx, hsy, hxy]
  obtain ⟨x1, x2, x3⟩ := x
  obtain ⟨y1, y2, y3⟩ := y
  simp only at hxy hidx hsc
  rw [hxy, hidx, hsc]

/-- C2 counterexample: with the distinct descriptors `dupA` and `dupB`
(unique names, distinct URLs, identical searchable text `"p 1 2 r"`) and
the non-blank query `"p 1 2 r"`, both entries score 100 ≥ 60, yet the
result is `[dupA, dupA]`: `dupB` is missing even though it passes the
threshold, because `choice_texts.index` resolves its text to the first
occurrence.  This refutes "the filtered result contains exactly those
descriptors whose fuzzy score is at least 60". -/
theorem c2_counterexample :
    isBlank "p 1 2 r" = false ∧
      60 ≤ exactScorer "p 1 2 r" (combinedText dupB) ∧
      dupB ∈ [dupA, dupB] ∧
      filter_programs exactScorer "p 1 2 r" [dupA, dupB] = [dupA, dupA] ∧
      dupB ∉ filter_programs exactScorer "p 1 2 r" [dupA, dupB] := by
  decide

/-- C2 (amended): provided the searchable texts of the catalog are pairwise
distinct, for every non-blank query the filtered result contains exactly
the descriptors scoring at least 60 (no descriptor scoring below 60
appears), and when every entry scores below 60 the result is the empty
sequence rather than a fallback to the full catalog. -/
theorem c2_score_threshold (scorer : String → String → Nat) (q : String)
    (original : List ProgramDescriptor) (hq : isBlank q = false)
    (hnodup : (original.map combinedText).Nodup) :
    (∀ p, p ∈ filter_programs scorer q original ↔
        p ∈ original ∧ 60 ≤ scorer q (combinedText p)) ∧
      ((∀ p ∈ original, scorer q (combinedText p) < 60) →
        filter_programs scorer q original = []) := by
  refine ⟨mem_filter_programs_iff scorer q original hq hnodup, fun hall => ?_⟩
  rw [List.eq_nil_iff_forall_not_mem]
  intro p hp
  obtain ⟨hmem, hscore⟩ :=
    (mem_filter_programs_iff scorer q original hq hnodup p).mp hp
  exact absurd hscore (Nat.not_le.mpr (hall p hmem))

/-- C2 witness: scenario A's catalog extended with Bar, queried with Foo's
exact searchable text: Foo (score 100) is kept, and on the query `"zzz"`
(all scores 0) the result is empty. -/
theorem c2_score_threshold_witness :
    fooDescriptor ∈ filter_programs exactScorer "Foo 1.0 # Foo"
        [fooDescriptor, barDescriptor] ∧
      filter_programs exactScorer "zzz" [fooDescriptor, barDescriptor] = [] := by
  constructor
  · exact ((c2_score_threshold exactScorer "Foo 1.0 # Foo"
      [fooDescriptor, barDescriptor] (by decide) (by decide)).1 fooDescriptor).mpr
      ⟨by decide, by decide⟩
  · exact (c2_score_threshold exactScorer "zzz"
      [fooDescriptor, barDescriptor] (by decide) (by decide)).2 (by decide)

/-- C4 counterexample: in the catalog `[dupA, dupD, dupC]` (where `dupA`
and `dupC` share a searchable text and `dupD` has its own) every entry gets
the same score, so the stable tie-break demands the original order; but the
computed view is `[dupA, dupD, dupA]`, in which `dupD` precedes a
descriptor that comes before it in the catalog — the claimed ordering
contract fails. -/
theorem c4_counterexample :
    isBlank "x" = false ∧
      filter_programs uniformScorer "x" [dupA, dupD, dupC] = [dupA, dupD, dupA] ∧
      ¬ orderedByScore uniformScorer "x" [dupA, dupD, dupC]
          (filter_programs uniformScorer "x" [dupA, dupD, dupC]) := by
  refine ⟨by decide, by decide, ?_⟩
  intro h
  rw [show filter_programs uniformScorer "x" [dupA, dupD, dupC] =
      [dupA, dupD, dupA] by decide] at h
  unfold orderedByScore at h
  have h2 := (List.pairwise_cons.mp ((List.pairwise_cons.mp h).2)).1 dupA
    (List.mem_singleton.mpr rfl)
  have h3 := h2.2 rfl
  revert h3
  decide

/-- C4 (amended): provided the searchable texts are pairwise distinct, for
every non-blank query the filtered result is ordered by descending score,
and kept entries with equal score appear in the same relative order as in
the original catalog (stable tie-break). -/
theorem c4_descending_stable (scorer : String → String → Nat) (q : String)
    (original : List ProgramDescriptor) (hq : isBlank q = false)
    (hnodup : (original.map combinedText).Nodup) :
    orderedByScore scorer q original (filter_programs scorer q original) := by
  have hnd : original.Nodup := List.Nodup.of_map combinedText hnodup
  rw [filter_programs_eq_ranked scorer q original hq hnodup]
  unfold orderedByScore
  rw [List.pairwise_map]
  have hsorted : (rankedPrograms scorer q original).Pairwise rankLE :=
    List.sorted_insertionSort rankLE _
  have hcomb := hsorted.and (rankedPrograms_nodup scorer q original)
  refine List.Pairwise.imp_of_mem ?_
    (List.Pairwise.sublist (List.filter_sublist _) hcomb)
  intro a b ha hb hab
  obtain ⟨hrank, hne⟩ := hab
  obtain ⟨hga, hsa⟩ := mem_rankedPrograms_facts (List.mem_of_mem_filter ha)
  obtain ⟨hgb, hsb⟩ := mem_rankedPrograms_facts (List.mem_of_mem_filter hb)
  constructor
  · rw [← hsa, ← hsb]
    rcases hrank with h | ⟨h, _⟩
    · exact Nat.le_of_lt h
    · exact Nat.le_of_eq h.symm
  · intro htie
    have hsc : a.2.1 = b.2.1 := by rw [hsa, hsb, htie]
    have hle : a.2.2 ≤ b.2.2 := by
      rcases hrank with h | ⟨_, h⟩
      · omega
      · exact h
    have hia : original.indexOf a.1 = a.2.2 := indexOf_eq_of_get? hnd hga
    have hib : original.indexOf b.1 = b.2.2 := indexOf_eq_of_get? hnd hgb
    rw [hia, hib]
    rcases Nat.lt_or_ge a.2.2 b.2.2 with h | h
    · exact h
    · exfalso
      have hidx : a.2.2 = b.2.2 := Nat.le_antisymm hle h
      have hp : a.1 = b.1 := by
        have := hga
        rw [hidx, hgb] at this
        exact (Option.some_injective _ this).symm
      apply hne
      obtain ⟨a1, a2, a3⟩ := a
      obtain ⟨b1, b2, b3⟩ := b
      simp only at hp hsc hidx
      rw [hp, hsc, hidx]

/-- C4 witness: with the distinct-text catalog `[Foo, Bar]` and Foo's exact
text as the query, the computed view satisfies the ordering contract. -/
theorem c4_descending_stable_witness :
    orderedByScore exactScorer "Foo 1.0 # Foo" [fooDescriptor, barDescriptor]
      (filter_programs exactScorer "Foo 1.0 # Foo" [fooDescriptor, barDescriptor]) :=
  c4_descending_stable exactScorer "Foo 1.0 # Foo" [fooDescriptor, barDescriptor]
    (by decide) (by decide)

/-- C5 counterexample: with `dupA` and `dupC` (distinct URLs, identical
searchable text) the query `"p 1 2 r"` produces an active view containing
`dupA` twice while the original catalog contains it once — the active view
is not a subsequence of the original. -/
theorem c5_counterexample :
    (filter_programs exactScorer "p 1 2 r" [dupA, dupC]).count dupA = 2 ∧
      ([dupA, dupC] : List ProgramDescriptor).count dupA = 1 := by
  decide

/-- C5 (amended): provided the searchable texts are pairwise distinct,
after a load, a search, or a reset the active view is a multiset
subsequence of the original catalog: no descriptor occurs more often in the
view than in the original, and every displayed descriptor is a catalog
member; loading leaves both views equal to the fetched list (the pure model
never mutates `original`). -/
theorem c5_active_subsequence (scorer : String → String → Nat) (q : String)
    (original : List ProgramDescriptor)
    (hnodup : (original.map combinedText).Nodup) :
    (∀ p, (filter_programs scorer q original).count p ≤ original.count p) ∧
      (∀ p ∈ filter_programs scorer q original, p ∈ original) ∧
      (load_data original).active = original ∧
      (load_data original).original = original := by
  by_cases hq : isBlank q = true
  · have hres : filter_programs scorer q original = original := by
      simp [filter_programs, hq]
    rw [hres]
    exact ⟨fun p => Nat.le_refl _, fun p hp => hp, rfl, rfl⟩
  · have hq' : isBlank q = false := by
      revert hq
      cases isBlank q <;> simp
    refine ⟨?_, ?_, rfl, rfl⟩
    · intro p
      by_cases hp : p ∈ filter_programs scorer q original
      · have h1 : (filter_programs scorer q original).count p ≤ 1 :=
          List.nodup_iff_count_le_one.mp
            (filter_programs_nodup scorer q original hq' hnodup) p
        have hmem : p ∈ original :=
          ((mem_filter_programs_iff scorer q original hq' hnodup p).mp hp).1
        have h2 : 0 < original.count p := List.count_pos_iff.mpr hmem
        omega
      · rw [List.count_eq_zero.mpr hp]
        exact Nat.zero_le _
    · intro p hp
      exact ((mem_filter_programs_iff scorer q original hq' hnodup p).mp hp).1

/-- C5 witness: the distinct-text catalog `[Foo, Bar]` under Foo's text as
the query: counts are bounded by the original's, members come from it, and
loading leaves both views equal to it. -/
theorem c5_active_subsequence_witness :
    (∀ p, (filter_programs exactScorer "Foo 1.0 # Foo"
        [fooDescriptor, barDescriptor]).count p ≤
      ([fooDescriptor, barDescriptor] : List ProgramDescriptor).count p) ∧
      (∀ p ∈ filter_programs exactScorer "Foo 1.0 # Foo"
          [fooDescriptor, barDescriptor], p ∈ [fooDescriptor, barDescriptor]) ∧
      (load_data [fooDescriptor, barDescriptor]).active =
        [fooDescriptor, barDescriptor] ∧
      (load_data [fooDescriptor, barDescriptor]).original =
        [fooDescriptor, barDescriptor] :=
  c5_active_subsequence exactScorer "Foo 1.0 # Foo" [fooDescriptor, barDescriptor]
    (by decide)

end Launcher
